import Mathlib

/-!
Verification development for the bla-back chat backend.

The definitions below are a shallow embedding of the realtime presence
tracker (internal/realtime/centrifuge.go), the ready-state aggregator
(internal/realtime/provider.go), the event fan-out publisher, and the call
session state machine (internal/handlers/calls.go together with the calls
repository in the `calls` package).  User ids (uuid.UUID in Go) are
modelled as Nat, timestamps as Nat, Go `int` map values as Int.
-/

namespace BlaBack

/-! ## Presence tracker (internal/realtime/centrifuge.go)

The Go field `onlineUsers map[uuid.UUID]int` is modelled as an association
list.  Reading a missing key yields the zero value 0, exactly as a Go map
read does; `delete` removes the entry. -/

/-- Go map read `m[k]`: the stored value, or the zero value 0 when absent. -/
def mapGet (m : List (Nat × Int)) (k : Nat) : Int :=
  match m.find? (fun e => e.1 == k) with
  | some e => e.2
  | none => 0

/-- Go map write `m[k] = v` (upsert). -/
def mapSet (m : List (Nat × Int)) (k : Nat) (v : Int) : List (Nat × Int) :=
  match m with
  | [] => [(k, v)]
  | e :: rest => if e.1 == k then (k, v) :: rest else e :: mapSet rest k v

/-- Go `delete(m, k)`. -/
def mapDel (m : List (Nat × Int)) (k : Nat) : List (Nat × Int) :=
  m.filter (fun e => !(e.1 == k))

/-- Whether the map holds an entry for `k` (regardless of its value). -/
def mapContains (m : List (Nat × Int)) (k : Nat) : Bool :=
  (m.find? (fun e => e.1 == k)).isSome

/-- Node.addOnlineUser: `wasOffline := m[u] == 0; m[u]++; return wasOffline`. -/
def addOnlineUser (m : List (Nat × Int)) (u : Nat) : List (Nat × Int) × Bool :=
  (mapSet m u (mapGet m u + 1), mapGet m u == 0)

/-- Node.removeOnlineUser: `m[u]--; if m[u] <= 0 { delete(m, u); return true };
return false`.  The decremented map is `mapSet m u (mapGet m u - 1)`. -/
def removeOnlineUser (m : List (Nat × Int)) (u : Nat) : List (Nat × Int) × Bool :=
  if mapGet (mapSet m u (mapGet m u - 1)) u ≤ 0 then
    (mapDel (mapSet m u (mapGet m u - 1)) u, true)
  else
    (mapSet m u (mapGet m u - 1), false)

/-- Node.IsOnline: `return m[u] > 0`. -/
def isOnline (m : List (Nat × Int)) (u : Nat) : Bool :=
  mapGet m u > 0

/-! Basic lemmas about the map model. -/

theorem mapGet_cons_ne (e : Nat × Int) (rest : List (Nat × Int)) (k : Nat)
    (h : e.1 ≠ k) : mapGet (e :: rest) k = mapGet rest k := by
  unfold mapGet
  rw [List.find?_cons_of_neg _ (by simpa using h)]

theorem mapContains_cons_ne (e : Nat × Int) (rest : List (Nat × Int)) (k : Nat)
    (h : e.1 ≠ k) : mapContains (e :: rest) k = mapContains rest k := by
  unfold mapContains
  rw [List.find?_cons_of_neg _ (by simpa using h)]

theorem mapGet_set_self (m : List (Nat × Int)) (k : Nat) (v : Int) :
    mapGet (mapSet m k v) k = v := by
  induction m with
  | nil =>
    unfold mapSet mapGet
    rw [List.find?_cons_of_pos _ (by simp)]
  | cons e rest ih =>
    by_cases h : e.1 = k
    · unfold mapSet mapGet
      simp only [h, beq_self_eq_true, if_true]
      rw [List.find?_cons_of_pos _ (by simp)]
    · unfold mapSet
      simp only [beq_iff_eq, h, if_false]
      rw [mapGet_cons_ne e _ k h]
      exact ih

theorem mapContains_set_self (m : List (Nat × Int)) (k : Nat) (v : Int) :
    mapContains (mapSet m k v) k = true := by
  induction m with
  | nil =>
    unfold mapSet mapContains
    rw [List.find?_cons_of_pos _ (by simp)]
    rfl
  | cons e rest ih =>
    by_cases h : e.1 = k
    · unfold mapSet mapContains
      simp only [h, beq_self_eq_true, if_true]
      rw [List.find?_cons_of_pos _ (by simp)]
      rfl
    · unfold mapSet
      simp only [beq_iff_eq, h, if_false]
      rw [mapContains_cons_ne e _ k h]
      exact ih

theorem mapDel_cons (e : Nat × Int) (rest : List (Nat × Int)) (k : Nat) :
    mapDel (e :: rest) k
      = if e.1 = k then mapDel rest k else e :: mapDel rest k := by
  unfold mapDel
  rw [List.filter_cons]
  by_cases h : e.1 = k
  · simp [h]
  · simp [beq_eq_false_iff_ne.mpr h, h]

theorem mapGet_del_self (m : List (Nat × Int)) (k : Nat) :
    mapGet (mapDel m k) k = 0 := by
  induction m with
  | nil => rfl
  | cons e rest ih =>
    rw [mapDel_cons]
    by_cases h : e.1 = k
    · rw [if_pos h]; exact ih
    · rw [if_neg h, mapGet_cons_ne e _ k h]; exact ih

theorem mapContains_del_self (m : List (Nat × Int)) (k : Nat) :
    mapContains (mapDel m k) k = false := by
  induction m with
  | nil => rfl
  | cons e rest ih =>
    rw [mapDel_cons]
    by_cases h : e.1 = k
    · rw [if_pos h]; exact ih
    · rw [if_neg h, mapContains_cons_ne e _ k h]; exact ih

/-- If the map has no entry for `k`, setting `k` appends a new entry at the
end of the list. -/
theorem mapSet_absent (m : List (Nat × Int)) (k : Nat) (v : Int)
    (h : mapContains m k = false) : mapSet m k v = m ++ [(k, v)] := by
  induction m with
  | nil => rfl
  | cons e rest ih =>
    by_cases he : e.1 = k
    · exfalso
      unfold mapContains at h
      rw [List.find?_cons_of_pos _ (by simpa using he)] at h
      simp at h
    · rw [mapContains_cons_ne e _ k he] at h
      unfold mapSet
      simp only [beq_iff_eq, he, if_false, List.cons_append, List.cons.injEq,
        true_and]
      exact ih h

/-- Deleting a key that a list does not hold leaves the list unchanged. -/
theorem mapDel_absent (m : List (Nat × Int)) (k : Nat)
    (h : mapContains m k = false) : mapDel m k = m := by
  induction m with
  | nil => rfl
  | cons e rest ih =>
    by_cases he : e.1 = k
    · exfalso
      unfold mapContains at h
      rw [List.find?_cons_of_pos _ (by simpa using he)] at h
      simp at h
    · rw [mapContains_cons_ne e _ k he] at h
      rw [mapDel_cons, if_neg he]
      exact congrArg (e :: ·) (ih h)

theorem mapGet_absent (m : List (Nat × Int)) (k : Nat)
    (h : mapContains m k = false) : mapGet m k = 0 := by
  unfold mapContains at h
  unfold mapGet
  cases hf : m.find? (fun e => e.1 == k) with
  | none => rfl
  | some e => rw [hf] at h; simp at h

theorem mapGet_append_single (m : List (Nat × Int)) (u : Nat) (v : Int)
    (h : mapContains m u = false) : mapGet (m ++ [(u, v)]) u = v := by
  induction m with
  | nil =>
    unfold mapGet
    rw [List.nil_append, List.find?_cons_of_pos _ (by simp)]
  | cons e rest ih =>
    by_cases he : e.1 = u
    · exfalso
      unfold mapContains at h
      rw [List.find?_cons_of_pos _ (by simpa using he)] at h
      simp at h
    · rw [mapContains_cons_ne e _ u he] at h
      rw [List.cons_append, mapGet_cons_ne e _ u he]
      exact ih h

theorem mapDel_append_single (m : List (Nat × Int)) (u : Nat) (v : Int)
    (h : mapContains m u = false) : mapDel (m ++ [(u, v)]) u = m := by
  have h1 := mapDel_absent m u h
  unfold mapDel at h1 ⊢
  rw [List.filter_append, h1]
  simp

/-- A disconnect for a user absent from the presence map leaves the map
unchanged (the transient `-1` entry is deleted in the same call) but
returns `true`. -/
theorem removeOnlineUser_absent_eq (m : List (Nat × Int)) (u : Nat)
    (h : mapContains m u = false) : removeOnlineUser m u = (m, true) := by
  have h0 : mapGet m u = 0 := mapGet_absent m u h
  unfold removeOnlineUser
  rw [mapSet_absent m u _ h, h0, mapGet_append_single m u _ h,
    if_pos (by norm_num : (0 : Int) - 1 ≤ 0)]
  exact congrArg (fun x => (x, true)) (mapDel_append_single m u _ h)

/-! ## Presence sequences (claim C4)

`runPresence u ops m` replays a sequence of connect (`true`) / disconnect
(`false`) events for user `u` against the tracker, collecting the edge
boolean each call returns.  `specEdges`, `netCount` and `balancedFrom` are
the specification-side reference counters. -/

def runPresence (u : Nat) : List Bool → List (Nat × Int) → List (Nat × Int) × List Bool
  | [], m => (m, [])
  | op :: rest, m =>
    let s := if op then addOnlineUser m u else removeOnlineUser m u
    let r := runPresence u rest s.1
    (r.1, s.2 :: r.2)

/-- The edges the spec expects: a connect reports an edge exactly on 0→1,
a disconnect exactly on 1→0, tracked from a running count `c`. -/
def specEdges : Nat → List Bool → List Bool
  | _, [] => []
  | c, true :: rest => decide (c = 0) :: specEdges (c + 1) rest
  | c, false :: rest => decide (c = 1) :: specEdges (c - 1) rest

/-- Connects-so-far minus disconnects-so-far, starting from `c`. -/
def netCount : Nat → List Bool → Nat
  | c, [] => c
  | c, true :: rest => netCount (c + 1) rest
  | c, false :: rest => netCount (c - 1) rest

/-- No prefix of the sequence has more disconnects than connects
(each disconnect happens while the running count is at least 1). -/
def balancedFrom : Nat → List Bool → Prop
  | _, [] => True
  | c, true :: rest => balancedFrom (c + 1) rest
  | c, false :: rest => 1 ≤ c ∧ balancedFrom (c - 1) rest

theorem balancedFrom_take (ops : List Bool) :
    ∀ (c i : Nat), balancedFrom c ops → balancedFrom c (ops.take i) := by
  induction ops with
  | nil =>
    intro c i _
    simp only [List.take_nil]
    trivial
  | cons op rest ih =>
    intro c i h
    cases i with
    | zero =>
      simp only [List.take_zero]
      trivial
    | succ j =>
      rw [List.take_succ_cons]
      cases op
      · exact ⟨h.1, ih _ j h.2⟩
      · exact ih _ j h

theorem addOnlineUser_spec (m : List (Nat × Int)) (u : Nat) (c : Nat)
    (hget : mapGet m u = (c : Int)) :
    (addOnlineUser m u).2 = decide (c = 0)
    ∧ mapGet (addOnlineUser m u).1 u = ((c + 1 : Nat) : Int)
    ∧ mapContains (addOnlineUser m u).1 u = decide (0 < c + 1) := by
  unfold addOnlineUser
  rw [hget]
  refine ⟨?_, ?_, ?_⟩
  · by_cases hc : c = 0
    · subst hc; rfl
    · rw [beq_eq_false_iff_ne.mpr (by exact_mod_cast hc), decide_eq_false hc]
  · rw [mapGet_set_self]
    push_cast
    ring
  · rw [mapContains_set_self, decide_eq_true (by omega)]

theorem removeOnlineUser_spec (m : List (Nat × Int)) (u : Nat) (c : Nat)
    (hget : mapGet m u = (c : Int)) (hc : 1 ≤ c) :
    (removeOnlineUser m u).2 = decide (c = 1)
    ∧ mapGet (removeOnlineUser m u).1 u = ((c - 1 : Nat) : Int)
    ∧ mapContains (removeOnlineUser m u).1 u = decide (0 < c - 1) := by
  unfold removeOnlineUser
  rw [hget, mapGet_set_self]
  by_cases h1 : c = 1
  · subst h1
    rw [if_pos (by norm_num)]
    refine ⟨rfl, ?_, ?_⟩
    · rw [mapGet_del_self]; rfl
    · rw [mapContains_del_self]; rfl
  · have h2 : 2 ≤ c := by omega
    rw [if_neg (by omega)]
    refine ⟨by rw [decide_eq_false h1], ?_, ?_⟩
    · rw [mapGet_set_self]
      push_cast [Nat.cast_sub hc]
      ring
    · rw [mapContains_set_self, decide_eq_true (by omega)]

theorem runPresence_spec (u : Nat) (ops : List Bool) :
    ∀ (m : List (Nat × Int)) (c : Nat), mapGet m u = (c : Int) →
      mapContains m u = decide (0 < c) → balancedFrom c ops →
      (runPresence u ops m).2 = specEdges c ops
      ∧ mapGet (runPresence u ops m).1 u = ((netCount c ops : Nat) : Int)
      ∧ mapContains (runPresence u ops m).1 u = decide (0 < netCount c ops) := by
  induction ops with
  | nil =>
    intro m c h1 h2 _
    exact ⟨rfl, h1, h2⟩
  | cons op rest ih =>
    intro m c h1 h2 hbal
    cases op
    · -- disconnect
      obtain ⟨hc, hbal'⟩ := hbal
      obtain ⟨he, hg, hm⟩ := removeOnlineUser_spec m u c h1 hc
      have hrest := ih (removeOnlineUser m u).1 (c - 1) hg hm hbal'
      simp only [runPresence, if_false, Bool.false_eq_true]
      exact ⟨by simp only [specEdges]; rw [he, hrest.1], hrest.2.1, hrest.2.2⟩
    · -- connect
      obtain ⟨he, hg, hm⟩ := addOnlineUser_spec m u c h1
      have hrest := ih (addOnlineUser m u).1 (c + 1) hg hm hbal
      simp only [runPresence, if_true]
      exact ⟨by simp only [specEdges]; rw [he, hrest.1], hrest.2.1, hrest.2.2⟩

/-- C3 counterexample: disconnecting a user with no entry in the presence
map returns `true`, not `false` as the claim states — the transient `-1`
satisfies the `<= 0` test, so the entry is deleted and the call reports an
offline edge. -/
theorem removeOnlineUser_absent_returns_true :
    ¬((removeOnlineUser [] 0).2 = false) := by decide

/-- C3 (amended): for every user id absent from the presence map,
Disconnect leaves the map exactly unchanged (no negative count persists,
no entry remains, no panic) and reports `false` for IsOnline afterwards,
but it returns `true`, i.e. it does report an online-to-offline
transition edge. -/
theorem removeOnlineUser_absent_noop (m : List (Nat × Int)) (u : Nat)
    (h : mapContains m u = false) :
    removeOnlineUser m u = (m, true)
    ∧ mapContains (removeOnlineUser m u).1 u = false
    ∧ isOnline (removeOnlineUser m u).1 u = false := by
  have he := removeOnlineUser_absent_eq m u h
  refine ⟨he, ?_, ?_⟩
  · rw [he]; exact h
  · rw [he]
    unfold isOnline
    rw [mapGet_absent m u h]
    rfl

theorem removeOnlineUser_absent_noop_witness :
    mapContains [(1, 2)] 0 = false
    ∧ removeOnlineUser [(1, 2)] 0 = ([(1, 2)], true) :=
  ⟨by decide, (removeOnlineUser_absent_noop [(1, 2)] 0 (by decide)).1⟩

/-- C4: for every sequence of connects and disconnects for one user in
which no prefix has more disconnects than connects, the edge booleans
returned by Connect/Disconnect are exactly the 0→1 and 1→0 transitions of
the reference count (`specEdges`), and after each step IsOnline is true
exactly when connects-so-far minus disconnects-so-far is positive, and a
presence-map entry for the user exists exactly when that count is
positive. -/
theorem presence_refcount_invariant (u : Nat) (ops : List Bool)
    (hbal : balancedFrom 0 ops) :
    (runPresence u ops []).2 = specEdges 0 ops
    ∧ ∀ i : Nat,
        isOnline ((runPresence u (ops.take i) []).1) u
            = decide (0 < netCount 0 (ops.take i))
        ∧ mapContains ((runPresence u (ops.take i) []).1) u
            = decide (0 < netCount 0 (ops.take i)) := by
  constructor
  · exact (runPresence_spec u ops [] 0 rfl rfl hbal).1
  · intro i
    have hb : balancedFrom 0 (ops.take i) := balancedFrom_take ops 0 i hbal
    have h := runPresence_spec u (ops.take i) [] 0 rfl rfl hb
    refine ⟨?_, h.2.2⟩
    unfold isOnline
    rw [h.2.1]
    by_cases hp : 0 < netCount 0 (ops.take i)
    · rw [decide_eq_true hp, decide_eq_true (by exact_mod_cast hp)]
    · rw [decide_eq_false hp, decide_eq_false (by exact_mod_cast hp)]

theorem presence_refcount_invariant_witness :
    (runPresence 7 [true, true, false, false] []).2
        = specEdges 0 [true, true, false, false]
    ∧ isOnline ((runPresence 7 ([true, true, false, false].take 3) []).1) 7
        = decide (0 < netCount 0 ([true, true, false, false].take 3)) := by
  have h := presence_refcount_invariant 7 [true, true, false, false]
    ⟨by omega, by omega, trivial⟩
  exact ⟨h.1, (h.2 3).1⟩

/-! ## Data model (internal/models, package calls)

Only the fields the verified code paths touch are carried. -/

structure User where
  id : Nat
  username : String
  status : String
  deriving Repr, DecidableEq

structure FriendWithUser where
  friendshipID : Nat
  user : User
  deriving Repr, DecidableEq

structure FriendRequestWithUser where
  id : Nat
  status : String
  user : User
  deriving Repr, DecidableEq

structure ConversationWithDetails where
  id : Nat
  participants : List User
  deriving Repr, DecidableEq

structure ActiveCallInfo where
  callID : Nat
  conversationID : Nat
  participants : List Nat
  startedAt : Nat
  deriving Repr, DecidableEq

/-- A row of the call_participants table (package calls, Participant). -/
structure Participant where
  userID : Nat
  joinedAt : Nat
  leftAt : Option Nat
  deriving Repr, DecidableEq

/-- A row of the calls table (package calls, Call); `participants` carries
the active participants when the query loads them. -/
structure Call where
  id : Nat
  conversationID : Nat
  startedBy : Nat
  startedAt : Nat
  endedAt : Option Nat
  participants : List Participant
  deriving Repr, DecidableEq

structure ReadyEvent where
  user : User
  friends : List FriendWithUser
  incomingRequests : List FriendRequestWithUser
  outgoingRequests : List FriendRequestWithUser
  conversations : List ConversationWithDetails
  activeCalls : List ActiveCallInfo
  deriving Repr, DecidableEq

/-! ## Ready-state aggregator (internal/realtime/provider.go)

Each collaborator fetch is a parameter.  GetFriends,
GetIncomingRequests and GetOutgoingRequests end with
`return X, rows.Err()`, so a late iteration failure hands the provider a
partially-scanned non-nil slice together with the error; they are
modelled as a Go-style (value, error) pair whose nil slice is `none`.
GetUserConversations and GetActiveCallsForConversations return a nil
slice on every error path, so `Except` represents them exactly. -/

/-- A Go `([]T, error)` return: `val = none` models a nil slice, which
can accompany an error or not; a non-nil (possibly partial) slice can
accompany an error too. -/
structure GoSliceResult (α : Type) where
  val : Option (List α)
  err : Option String
  deriving Repr

/-- Whether a Go (value, err) pair carries a non-nil error. -/
def hasErr : Except String α → Bool
  | .error _ => true
  | .ok _ => false

/-- The slice a nil-returning-on-error sub-fetch contributed: its value
on success, nil (empty) on failure. -/
def orEmpty : Except String (List α) → List α
  | .ok l => l
  | .error _ => []

/-- The provider's nil-coalescing `if r.x == nil { r.x = []T{} }`: the
slice is kept as returned, a nil slice becomes the empty one. -/
def nilToEmpty (v : Option (List α)) : List α := v.getD []

structure ProviderFetches where
  getUserByID : Except String User
  getFriends : GoSliceResult FriendWithUser
  getIncomingRequests : GoSliceResult FriendRequestWithUser
  getOutgoingRequests : GoSliceResult FriendRequestWithUser
  getUserConversations : Except String (List ConversationWithDetails)
  getActiveCallsForConversations : List Nat → Except String (List Call)

/-- The ReadyEvent assembled once the user fetch succeeded: every other
fetch has its error dropped (`r.x, _ = ...`) and only a nil slice is
replaced by the empty one, so a partially-scanned slice returned
alongside an iteration error is kept; active calls are resolved only for
the conversations the user belongs to (and only when there is at least
one). -/
def readyOf (f : ProviderFetches) (user : User) : ReadyEvent :=
  { user := user
    friends := nilToEmpty f.getFriends.val
    incomingRequests := nilToEmpty f.getIncomingRequests.val
    outgoingRequests := nilToEmpty f.getOutgoingRequests.val
    conversations := orEmpty f.getUserConversations
    activeCalls :=
      if 0 < (orEmpty f.getUserConversations).length then
        (orEmpty
          (f.getActiveCallsForConversations
            ((orEmpty f.getUserConversations).map (fun c => c.id)))).map
          (fun call =>
            { callID := call.id
              conversationID := call.conversationID
              participants := call.participants.map (fun p => p.userID)
              startedAt := call.startedAt })
      else [] }

/-- Provider.GetReadyState: the user fetch is the only fatal one. -/
def getReadyState (f : ProviderFetches) : Except String ReadyEvent :=
  match f.getUserByID with
  | .error e => .error e
  | .ok user => .ok (readyOf f user)

theorem orEmpty_of_hasErr (r : Except String (List α)) (h : hasErr r = true) :
    orEmpty r = [] := by
  cases r with
  | ok l => simp [hasErr] at h
  | error e => rfl

/-- C5 counterexample: the friends fetch fails late in iteration
(rows.Err non-nil) after one row was scanned, so it returns that partial
non-nil slice together with its error; the provider drops the error and
keeps the slice, so the friends field of the successfully built
ReadyState is not the empty list — refuting "the corresponding field is
the empty list" for every sub-fetch failure. -/
theorem getReadyState_partial_slice_cex :
    (⟨some [⟨10, ⟨5, "b", "offline"⟩⟩], some "connection reset"⟩
        : GoSliceResult FriendWithUser).err = some "connection reset"
    ∧ getReadyState
        { getUserByID := Except.ok ⟨1, "a", "online"⟩
          getFriends := ⟨some [⟨10, ⟨5, "b", "offline"⟩⟩], some "connection reset"⟩
          getIncomingRequests := ⟨none, none⟩
          getOutgoingRequests := ⟨none, none⟩
          getUserConversations := Except.ok []
          getActiveCallsForConversations := fun _ => Except.ok [] }
      = Except.ok
          { user := ⟨1, "a", "online"⟩
            friends := [⟨10, ⟨5, "b", "offline"⟩⟩]
            incomingRequests := []
            outgoingRequests := []
            conversations := []
            activeCalls := [] }
    ∧ ([⟨10, ⟨5, "b", "offline"⟩⟩] : List FriendWithUser) ≠ [] := by
  refine ⟨rfl, rfl, by simp⟩

/-- C5 (amended): the ready-state build fails exactly when the
user-profile fetch fails; every other sub-fetch failure is absorbed and
the build still succeeds.  On failure the conversations and active-calls
fields are the empty list (those fetches return a nil slice with every
error), while the friends, incoming and outgoing fields are exactly the
slice the fetch returned alongside its error — the empty list whenever
that slice was nil (the query-error and scan-error paths), but a
partially-scanned non-nil slice from a late iteration error is kept. -/
theorem getReadyState_error_policy (f : ProviderFetches) :
    hasErr (getReadyState f) = hasErr f.getUserByID
    ∧ ∀ u, f.getUserByID = Except.ok u →
        ∃ r, getReadyState f = Except.ok r
          ∧ r.user = u
          ∧ r.friends = nilToEmpty f.getFriends.val
          ∧ (f.getFriends.val = none → r.friends = [])
          ∧ r.incomingRequests = nilToEmpty f.getIncomingRequests.val
          ∧ (f.getIncomingRequests.val = none → r.incomingRequests = [])
          ∧ r.outgoingRequests = nilToEmpty f.getOutgoingRequests.val
          ∧ (f.getOutgoingRequests.val = none → r.outgoingRequests = [])
          ∧ (hasErr f.getUserConversations = true → r.conversations = [])
          ∧ (hasErr (f.getActiveCallsForConversations
                (r.conversations.map (fun c => c.id))) = true →
              r.activeCalls = []) := by
  cases hu : f.getUserByID with
  | error e =>
    refine ⟨by simp [getReadyState, hu, hasErr], ?_⟩
    intro u hu'
    exact absurd hu' (by simp)
  | ok u0 =>
    refine ⟨by simp [getReadyState, hu, hasErr], ?_⟩
    intro u hu'
    obtain rfl : u0 = u := by injection hu'
    refine ⟨readyOf f u0, by simp [getReadyState, hu], rfl, rfl, ?_, rfl, ?_,
      rfl, ?_, ?_, ?_⟩
    · intro h
      show nilToEmpty f.getFriends.val = []
      rw [h]
      rfl
    · intro h
      show nilToEmpty f.getIncomingRequests.val = []
      rw [h]
      rfl
    · intro h
      show nilToEmpty f.getOutgoingRequests.val = []
      rw [h]
      rfl
    · intro h
      exact orEmpty_of_hasErr _ h
    · intro h
      show (readyOf f u0).activeCalls = []
      unfold readyOf
      by_cases hc : 0 < (orEmpty f.getUserConversations).length
      · simp only [if_pos hc]
        rw [orEmpty_of_hasErr _ (by exact h)]
        rfl
      · simp only [if_neg hc]

theorem getReadyState_error_policy_witness :
    ∃ r, getReadyState
        { getUserByID := Except.ok ⟨1, "a", "online"⟩
          getFriends := ⟨none, some "db down"⟩
          getIncomingRequests := ⟨none, none⟩
          getOutgoingRequests := ⟨none, none⟩
          getUserConversations := Except.error "db down"
          getActiveCallsForConversations := fun _ => Except.ok [] }
      = Except.ok r ∧ r.friends = [] ∧ r.conversations = [] := by
  obtain ⟨r, hr, _, _, hfr, _, _, _, _, hc, _⟩ :=
    (getReadyState_error_policy
      { getUserByID := Except.ok ⟨1, "a", "online"⟩
        getFriends := ⟨none, some "db down"⟩
        getIncomingRequests := ⟨none, none⟩
        getOutgoingRequests := ⟨none, none⟩
        getUserConversations := Except.error "db down"
        getActiveCallsForConversations := fun _ => Except.ok [] }).2
      ⟨1, "a", "online"⟩ rfl
  exact ⟨r, hr, hfr rfl, hc rfl⟩

/-! ## Channel authorization, enrichment and fan-out
(internal/realtime/centrifuge.go) -/

/-- The canonical per-user channel, a pure function of the user id. -/
def userChannel (userID : String) : String := "user:" ++ userID

/-- The status overwrite applied to an embedded user during the
ready-state enrichment pass. -/
def enrichStatus (online : Nat → Bool) (u : User) : User :=
  { u with status := if online u.id then "online" else "offline" }

/-- The enrichment pass of client.OnSubscribe: every friend's user and
every conversation participant gets its status overwritten from the
presence tracker. -/
def enrichReadyState (online : Nat → Bool) (r : ReadyEvent) : ReadyEvent :=
  { r with
    friends := r.friends.map (fun f => { f with user := enrichStatus online f.user })
    conversations := r.conversations.map
      (fun c => { c with participants := c.participants.map (enrichStatus online) }) }

inductive SubscribeOutcome where
  | accepted (ready : ReadyEvent)
  | permissionDenied
  | internalError
  deriving Repr, DecidableEq

/-- client.OnSubscribe: a channel other than the user's canonical channel
is rejected with ErrorPermissionDenied before anything else runs; then
the ready state is built (failure: ErrorInternal), enriched, and the
subscription is accepted.  This check receives only the connection's
user id and the requested channel; it does not consult the connect-time
token check, which lives in node.OnConnecting. -/
def onSubscribe (userID : String) (channel : String)
    (ready : Except String ReadyEvent) (online : Nat → Bool) : SubscribeOutcome :=
  if channel ≠ userChannel userID then .permissionDenied
  else
    match ready with
    | .error _ => .internalError
    | .ok r => .accepted (enrichReadyState online r)

/-- node.OnConnecting: an empty token or a token the token service
rejects refuses the connection; otherwise the connection is credited
with the user id the token resolves to. -/
def onConnecting (validate : String → Option String) (token : String) :
    Except String String :=
  if token = "" then .error "invalid token"
  else
    match validate token with
    | none => .error "invalid token"
    | some uid => .ok uid

/-- C6: a subscribe request succeeds only for the canonical per-user
channel derived from the connection's user id, and every other channel is
rejected with a permission error, for every possible ready-state fetch
result and presence state (the check is independent of them and of the
connect-time token check). -/
theorem onSubscribe_channel_scoping (userID channel : String)
    (ready : Except String ReadyEvent) (online : Nat → Bool) :
    (channel ≠ userChannel userID →
        onSubscribe userID channel ready online = .permissionDenied)
    ∧ (∀ r, onSubscribe userID channel ready online = .accepted r →
        channel = userChannel userID) := by
  constructor
  · intro h
    unfold onSubscribe
    rw [if_pos h]
  · intro r h
    by_cases hc : channel = userChannel userID
    · exact hc
    · unfold onSubscribe at h
      rw [if_pos hc] at h
      exact absurd h (by simp)

theorem onSubscribe_channel_scoping_witness :
    onSubscribe "alice" "user:bob"
      (Except.ok
        { user := ⟨1, "", ""⟩, friends := [], incomingRequests := [],
          outgoingRequests := [], conversations := [], activeCalls := [] })
      (fun _ => true) = SubscribeOutcome.permissionDenied :=
  (onSubscribe_channel_scoping "alice" "user:bob"
      (Except.ok
        { user := ⟨1, "", ""⟩, friends := [], incomingRequests := [],
          outgoingRequests := [], conversations := [], activeCalls := [] })
      (fun _ => true)).1 (by decide)

/-- C7: after enrichment every friend entry and every conversation
participant carries status "online" exactly when the presence tracker
reports that user online, and "offline" otherwise — the stored status
value never survives the pass. -/
theorem enrich_overwrites_status (m : List (Nat × Int)) (r : ReadyEvent) :
    (∀ f ∈ (enrichReadyState (isOnline m) r).friends,
        f.user.status = if isOnline m f.user.id then "online" else "offline")
    ∧ (∀ c ∈ (enrichReadyState (isOnline m) r).conversations,
        ∀ p ∈ c.participants,
          p.status = if isOnline m p.id then "online" else "offline") := by
  constructor
  · intro f hf
    simp only [enrichReadyState, List.mem_map] at hf
    obtain ⟨f0, _, rfl⟩ := hf
    simp [enrichStatus]
  · intro c hc p hp
    simp only [enrichReadyState, List.mem_map] at hc
    obtain ⟨c0, _, rfl⟩ := hc
    simp only [List.mem_map] at hp
    obtain ⟨p0, _, rfl⟩ := hp
    simp [enrichStatus]

theorem enrich_overwrites_status_witness :
    (⟨10, ⟨5, "a", "online"⟩⟩ : FriendWithUser)
        ∈ (enrichReadyState (isOnline [(5, 1)])
            { user := ⟨1, "", ""⟩
              friends := [⟨10, ⟨5, "a", "offline"⟩⟩]
              incomingRequests := []
              outgoingRequests := []
              conversations := []
              activeCalls := [] }).friends
    ∧ (⟨10, ⟨5, "a", "online"⟩⟩ : FriendWithUser).user.status
        = if isOnline [(5, 1)] 5 then "online" else "offline" := by
  have h := enrich_overwrites_status [(5, 1)]
    { user := ⟨1, "", ""⟩
      friends := [⟨10, ⟨5, "a", "offline"⟩⟩]
      incomingRequests := []
      outgoingRequests := []
      conversations := []
      activeCalls := [] }
  exact ⟨by decide, h.1 _ (by decide)⟩

/-! ## Event fan-out publisher (Node.PublishToUser) -/

inductive Json where
  | null
  | bool (b : Bool)
  | num (n : Int)
  | str (s : String)
  | arr (elems : List Json)
  | obj (fields : List (String × Json))

/-- The two-field envelope `json.Marshal(map{"type": ..., "data": ...})`
produces; Go's encoding/json writes map keys in sorted order, so "data"
precedes "type". -/
def eventEnvelope (eventType : String) (data : Json) : Json :=
  .obj [("data", data), ("type", .str eventType)]

/-- Node.PublishToUser: one publish of the envelope on the user's
canonical channel; the result is the list of (channel, message) pairs
handed to the broker. -/
def publishToUser (userID eventType : String) (data : Json) :
    List (String × Json) :=
  [(userChannel userID, eventEnvelope eventType data)]

def lookupField (j : Json) (k : String) : Option Json :=
  match j with
  | .obj fields => (fields.find? (fun e => e.1 == k)).map (fun e => e.2)
  | _ => none

def fieldCount (j : Json) : Option Nat :=
  match j with
  | .obj fields => some fields.length
  | _ => none

/-- C8: PublishToUser(U, X, P) publishes exactly one message, on U's
channel, whose content is a JSON object with exactly the two fields
"type" = X and "data" = P, with the same shape for every event kind. -/
theorem publishToUser_envelope (u x : String) (p : Json) :
    publishToUser u x p = [(userChannel u, eventEnvelope x p)]
    ∧ (publishToUser u x p).length = 1
    ∧ lookupField (eventEnvelope x p) "type" = some (.str x)
    ∧ lookupField (eventEnvelope x p) "data" = some p
    ∧ fieldCount (eventEnvelope x p) = some 2 := by
  refine ⟨rfl, rfl, ?_, ?_, rfl⟩
  · show Option.map (fun e => e.2)
        (List.find? (fun e => e.1 == "type") [("data", p), ("type", Json.str x)])
      = some (Json.str x)
    rw [List.find?_cons_of_neg _ (by simp), List.find?_cons_of_pos _ (by simp)]
    rfl
  · show Option.map (fun e => e.2)
        (List.find? (fun e => e.1 == "data") [("data", p), ("type", Json.str x)])
      = some p
    rw [List.find?_cons_of_pos _ (by simp)]
    rfl

/-! ## Call persistence store (package calls, src/unnamed/part_002)

The calls and call_participants tables, with the repository operations as
pure state transformers.  `PRow` is one call_participants row. -/

structure PRow where
  callID : Nat
  userID : Nat
  joinedAt : Nat
  leftAt : Option Nat
  deriving Repr, DecidableEq

structure Store where
  calls : List Call
  participants : List PRow
  deriving Repr, DecidableEq

/-- SELECT ... FROM calls WHERE id = k (GetCallWithParticipants's call
lookup). -/
def findCall (st : Store) (k : Nat) : Option Call :=
  st.calls.find? (fun c => c.id == k)

/-- The rows WHERE call_id = k AND left_at IS NULL. -/
def activeRows (st : Store) (k : Nat) : List PRow :=
  st.participants.filter (fun r => r.callID == k && r.leftAt.isNone)

/-- Repository.GetActiveParticipantCount. -/
def getActiveParticipantCount (st : Store) (k : Nat) : Nat :=
  (activeRows st k).length

/-- Repository.GetActiveParticipants. -/
def getActiveParticipantsOf (st : Store) (k : Nat) : List Nat :=
  (activeRows st k).map (fun r => r.userID)

/-- UPDATE ... SET left_at = t WHERE <p r> AND left_at IS NULL, the shape
shared by LeaveCall and EndCall's participant sweep. -/
def closeRows (p : PRow → Bool) (t : Nat) (rows : List PRow) : List PRow :=
  rows.map (fun r =>
    if p r && r.leftAt.isNone then { r with leftAt := some t } else r)

/-- Repository.LeaveCall: close the caller's open rows for the call. -/
def leaveCall (st : Store) (t k u : Nat) : Store :=
  { st with
    participants :=
      closeRows (fun r => r.callID == k && r.userID == u) t st.participants }

/-- Repository.JoinCall: a plain INSERT of a fresh open row (no dedupe). -/
def joinCall (st : Store) (t k u : Nat) : Store :=
  { st with
    participants :=
      st.participants ++ [{ callID := k, userID := u, joinedAt := t, leftAt := none }] }

/-- Repository.StartCall: insert the call and its starter row in one
transaction. -/
def startCallRepo (st : Store) (newID t conv u : Nat) : Store × Call :=
  let call : Call :=
    { id := newID, conversationID := conv, startedBy := u, startedAt := t,
      endedAt := none, participants := [] }
  ({ calls := st.calls ++ [call]
     participants :=
       st.participants ++ [{ callID := newID, userID := u, joinedAt := t, leftAt := none }] },
   call)

/-- Repository.IsUserInCall: some call the user has an open row in and
that has not ended. -/
def isUserInCall (st : Store) (u : Nat) : Option Call :=
  st.participants.findSome? (fun r =>
    if r.userID == u && r.leftAt.isNone then
      match findCall st r.callID with
      | some c => if c.endedAt.isNone then some c else none
      | none => none
    else none)

/-- Repository.GetActiveCallForConversation. -/
def getActiveCallForConversation (st : Store) (conv : Nat) : Option Call :=
  st.calls.find? (fun c => c.conversationID == conv && c.endedAt.isNone)

/-- The call-end summary the handler consumes. -/
structure CallEndInfo where
  callID : Nat
  conversationID : Nat
  startedBy : Nat
  participants : List Nat
  duration : Int
  deriving Repr, DecidableEq

/-- Modelled from the spec: the current repository EndCall — the revision
handlers/calls.go compiles against, returning `(*CallEndInfo, error)` —
is not under src/ (src/unnamed/part_002 carries an older revision whose
EndCall returns only an error).  Per spec §4.5/§9 and the handler's
contract ("EndCall returns nil if call was already ended"), EndCall is a
compare-and-swap on the session's end timestamp: only the writer that
transitions it from null to non-null closes the remaining participant
rows and produces the CallEndInfo (call id, conversation, starter, full
participant list, duration in whole seconds); observing the call already
ended is a benign no-op returning no CallEndInfo and no error. -/
def endCall (st : Store) (t k : Nat) : Store × Option CallEndInfo :=
  match findCall st k with
  | none => (st, none)
  | some c =>
    if c.endedAt.isSome then (st, none)
    else
      ({ calls := st.calls.map
           (fun c0 => if c0.id == k then { c0 with endedAt := some t } else c0)
         participants := closeRows (fun r => r.callID == k) t st.participants },
       some { callID := k
              conversationID := c.conversationID
              startedBy := c.startedBy
              participants :=
                ((st.participants.filter (fun r => r.callID == k)).map
                  (fun r => r.userID)).eraseDups
              duration := (t : Int) - (c.startedAt : Int) })

/-! ## Call handlers (internal/handlers/calls.go) -/

/-- The JSON content of the synthesized call system message. -/
structure CallMessageContent where
  callID : Nat
  duration : Int
  participants : List Nat
  status : String
  deriving Repr, DecidableEq

/-- CallsHandler.createCallMessage's content: status starts "completed"
and flips to "missed" when duration < 5 and exactly one participant ever
joined. -/
def createCallMessageContent (info : CallEndInfo) : CallMessageContent :=
  { callID := info.callID
    duration := info.duration
    participants := info.participants
    status :=
      if info.duration < 5 && info.participants.length == 1 then "missed"
      else "completed" }

/-- C9: the synthesized call message is classified "missed" exactly when
the full-history participant count is 1 and the duration is under 5
seconds, and "completed" in every other case. -/
theorem call_classification (info : CallEndInfo) :
    ((createCallMessageContent info).status = "missed"
        ↔ (info.participants.length = 1 ∧ info.duration < 5))
    ∧ ((createCallMessageContent info).status = "completed"
        ↔ ¬(info.participants.length = 1 ∧ info.duration < 5)) := by
  unfold createCallMessageContent
  by_cases h1 : info.duration < 5 <;> by_cases h2 : info.participants.length = 1 <;>
    simp [h1, h2]

structure CallStateEvent where
  conversationID : Nat
  callID : Option Nat
  participants : List Nat
  deriving Repr, DecidableEq

/-- CallsHandler.broadcastCallState: a participant-id lookup failure
aborts the broadcast; any failure fetching the active call degrades the
event to "no active call" (null call id, empty participants); the result
is the list of (recipient, event) notifications sent. -/
def broadcastCallState (getParticipantIDs : Except String (List Nat))
    (getActiveCall : Except String Call)
    (getActiveParts : Nat → Except String (List Nat))
    (conversationID : Nat) : List (Nat × CallStateEvent) :=
  match getParticipantIDs with
  | .error _ => []
  | .ok participantIDs =>
    participantIDs.map (fun uid =>
      (uid,
        match getActiveCall with
        | .ok call =>
          { conversationID := conversationID
            callID := some call.id
            participants := orEmpty (getActiveParts call.id) }
        | .error _ =>
          { conversationID := conversationID, callID := none, participants := [] }))

/-- C10: a participant-id resolution failure sends no CALL_STATE event at
all, while an active-call fetch failure still sends the event to every
conversation participant, but with a null call id and empty participant
list — indistinguishable from "no active call", whatever the error
was. -/
theorem broadcastCallState_error_policy (gp : Except String (List Nat))
    (gap : Nat → Except String (List Nat)) (cid : Nat) :
    (∀ e gc, gp = Except.error e → broadcastCallState gp gc gap cid = [])
    ∧ (∀ ids e, gp = Except.ok ids →
        broadcastCallState gp (Except.error e) gap cid
          = ids.map (fun uid => (uid, ⟨cid, none, []⟩)))
    ∧ (∀ e1 e2 gc',
        broadcastCallState gp (Except.error e1) gap cid
          = broadcastCallState gp (Except.error e2) gap cid
        ∧ (gc' = Except.error e1 →
            broadcastCallState gp gc' gap cid
              = broadcastCallState gp (Except.error e2) gap cid)) := by
  refine ⟨?_, ?_, ?_⟩
  · intro e gc h
    rw [h]
    rfl
  · intro ids e h
    rw [h]
    rfl
  · intro e1 e2 gc'
    constructor
    · cases gp <;> rfl
    · intro h
      rw [h]
      cases gp <;> rfl

theorem broadcastCallState_error_policy_witness :
    broadcastCallState (Except.error "db down")
      (Except.ok { id := 1, conversationID := 2, startedBy := 3, startedAt := 0,
                   endedAt := none, participants := [] })
      (fun _ => Except.ok []) 2 = []
    ∧ broadcastCallState (Except.ok [4, 5]) (Except.error "read timeout")
        (fun _ => Except.ok []) 2
      = [(4, ⟨2, none, []⟩), (5, ⟨2, none, []⟩)] := by
  have h := broadcastCallState_error_policy (Except.error "db down")
    (fun _ => Except.ok []) 2
  have h2 := broadcastCallState_error_policy (Except.ok [4, 5])
    (fun _ => Except.ok []) 2
  exact ⟨h.1 "db down" _ rfl, h2.2.1 [4, 5] "read timeout" rfl⟩

/-- CallsHandler.StartCall (the StartOrJoin path): conflict when the user
is in a call of a different conversation; otherwise start a new call when
the conversation has none, or join the existing one with a plain
JoinCall insert.  Returns the call id served. -/
def startCallFlow (st : Store) (t conv u newID : Nat) :
    Store × Except String Nat :=
  match isUserInCall st u with
  | some existingCall =>
    if existingCall.conversationID ≠ conv then
      (st, .error "Already in another call")
    else
      startOrJoinExisting st t conv u newID
  | none => startOrJoinExisting st t conv u newID
where
  startOrJoinExisting (st : Store) (t conv u newID : Nat) :
      Store × Except String Nat :=
    match getActiveCallForConversation st conv with
    | none =>
      let r := startCallRepo st newID t conv u
      (r.1, .ok r.2.id)
    | some call => (joinCall st t call.id u, .ok call.id)

/-! Store lemmas: closing rows only ever shrinks the set of active rows,
and EndCall's calls-table update is visible to findCall. -/

theorem filter_closeRows (p : PRow → Bool) (t k : Nat) (rows : List PRow) :
    (closeRows p t rows).filter (fun r => r.callID == k && r.leftAt.isNone)
      = rows.filter (fun r => (r.callID == k && r.leftAt.isNone) && !(p r)) := by
  induction rows with
  | nil => rfl
  | cons r rs ih =>
    rcases hn : r.leftAt with _ | v <;> by_cases hp : p r <;>
      by_cases hk : r.callID = k <;>
      simpa [closeRows, List.filter_cons, hp, hn, hk] using ih

theorem activeRows_leaveCall (st : Store) (t k u : Nat) :
    activeRows (leaveCall st t k u) k
      = (activeRows st k).filter (fun r => !(r.userID == u)) := by
  show (closeRows (fun r => r.callID == k && r.userID == u) t st.participants).filter _
      = _
  rw [filter_closeRows]
  unfold activeRows
  rw [List.filter_filter]
  apply List.filter_congr
  intro r _
  cases hcb : r.callID == k <;> cases hub : r.userID == u <;>
    cases hnb : r.leftAt.isNone <;> simp [hcb, hub, hnb]

theorem activeRows_closeAll (cs : List Call) (ps : List PRow) (t k : Nat) :
    activeRows
        { calls := cs, participants := closeRows (fun r => r.callID == k) t ps } k
      = [] := by
  show (closeRows (fun r => r.callID == k) t ps).filter _ = []
  rw [filter_closeRows]
  refine List.filter_eq_nil_iff.mpr ?_
  intro r _
  cases hcb : r.callID == k <;> simp [hcb]

theorem find_update (cs : List Call) (k t : Nat) (c : Call)
    (h : cs.find? (fun c0 => c0.id == k) = some c) :
    (cs.map (fun c0 => if c0.id == k then { c0 with endedAt := some t } else c0)).find?
        (fun c0 => c0.id == k) = some { c with endedAt := some t } := by
  induction cs with
  | nil => simp at h
  | cons c0 rest ih =>
    by_cases hk : c0.id = k
    · rw [List.find?_cons_of_pos _ (by simpa using hk)] at h
      injection h with h
      subst h
      simp only [List.map_cons, if_pos (show (c0.id == k) = true by simpa using hk)]
      rw [List.find?_cons_of_pos _ (by simpa using hk)]
    · rw [List.find?_cons_of_neg _ (by simpa using hk)] at h
      simp only [List.map_cons,
        if_neg (show ¬(c0.id == k) = true by simpa using hk)]
      rw [List.find?_cons_of_neg _ (by simpa using hk)]
      exact ih h

/-- EndCall either observes the call already ended — and is then the
identity with no CallEndInfo — or it transitions the end timestamp from
null to `t`, closes every row of the call, and produces the one
CallEndInfo. -/
theorem endCall_cases (st : Store) (t k : Nat) (c : Call)
    (hf : findCall st k = some c) :
    (c.endedAt.isSome = true ∧ endCall st t k = (st, none))
    ∨ (c.endedAt = none
        ∧ (∃ info, (endCall st t k).2 = some info)
        ∧ findCall (endCall st t k).1 k = some { c with endedAt := some t }
        ∧ activeRows (endCall st t k).1 k = []) := by
  by_cases he : c.endedAt.isSome = true
  · left
    refine ⟨he, ?_⟩
    simp only [endCall, hf]
    rw [if_pos he]
  · right
    have hnone : c.endedAt = none := by
      cases hc : c.endedAt with
      | none => rfl
      | some e => rw [hc] at he; exact absurd rfl he
    refine ⟨hnone, ?_, ?_, ?_⟩
    · exact ⟨{ callID := k, conversationID := c.conversationID,
               startedBy := c.startedBy,
               participants :=
                 ((st.participants.filter (fun r => r.callID == k)).map
                   (fun r => r.userID)).eraseDups,
               duration := (t : Int) - (c.startedAt : Int) },
        by simp only [endCall, hf]; rw [if_neg he]⟩
    · simp only [endCall, hf]
      rw [if_neg he]
      exact find_update st.calls k t c hf
    · simp only [endCall, hf]
      rw [if_neg he]
      exact activeRows_closeAll _ st.participants t k

inductive LeaveOutcome where
  | notFound
  | ok (info : Option CallEndInfo)
  deriving Repr, DecidableEq

/-- CallsHandler.LeaveCall: look the call up (404 when absent), close the
caller's rows, and when the active-participant count has dropped to zero
run EndCall; a produced CallEndInfo is the one handed to
createCallMessage.  Every non-404 path answers 204. -/
def leaveFlow (st : Store) (t k u : Nat) : Store × LeaveOutcome :=
  match findCall st k with
  | none => (st, .notFound)
  | some _ =>
    if getActiveParticipantCount (leaveCall st t k u) k = 0 then
      ((endCall (leaveCall st t k u) t k).1,
        .ok (endCall (leaveCall st t k u) t k).2)
    else (leaveCall st t k u, .ok none)

/-! ## The concurrent-leave race (claim C1)

Each Leave request is a thread of three atomic store operations — the
LeaveCall update, the GetActiveParticipantCount read, and (when the count
read zero) the EndCall compare-and-swap — interleaved by an arbitrary
schedule. -/

inductive ThreadState where
  | start
  | afterLeave
  | afterCount (n : Nat)
  | done (sawZero : Bool) (produced : Option CallEndInfo)
  deriving Repr, DecidableEq

/-- One atomic step of a Leave request for user `u` at time `t` on call
`k`. -/
def stepT (k u t : Nat) (st : Store) : ThreadState → Store × ThreadState
  | .start => (leaveCall st t k u, .afterLeave)
  | .afterLeave => (st, .afterCount (getActiveParticipantCount st k))
  | .afterCount n =>
    if n = 0 then ((endCall st t k).1, .done true (endCall st t k).2)
    else (st, .done false none)
  | .done z p => (st, .done z p)

/-- Run two Leave threads (users `u1`, `u2`, times `t1`, `t2`) under a
schedule: `true` steps the first thread, `false` the second. -/
def runRace (k u1 t1 u2 t2 : Nat) :
    List Bool → Store → ThreadState → ThreadState → Store × ThreadState × ThreadState
  | [], st, sa, sb => (st, sa, sb)
  | true :: rest, st, sa, sb =>
    runRace k u1 t1 u2 t2 rest (stepT k u1 t1 st sa).1 (stepT k u1 t1 st sa).2 sb
  | false :: rest, st, sa, sb =>
    runRace k u1 t1 u2 t2 rest (stepT k u2 t2 st sb).1 sa (stepT k u2 t2 st sb).2

/-- The CallEndInfo a thread has produced, if any. -/
def producedInfo : ThreadState → Option CallEndInfo
  | .done _ p => p
  | _ => none

def producedCount (s : ThreadState) : Nat :=
  match producedInfo s with
  | some _ => 1
  | none => 0

/-- A thread that is bound to finish without attempting EndCall: it read
(or will report having read) a non-zero count. -/
def committedFalse : ThreadState → Prop
  | .afterCount n => n ≠ 0
  | .done false _ => True
  | _ => False

/-- A thread that attempted the EndCall compare-and-swap and lost. -/
def sawZeroNone : ThreadState → Prop
  | .done true none => True
  | _ => False

def isDone : ThreadState → Prop
  | .done _ _ => True
  | _ => False

/-- The call's end timestamp has been set. -/
def callEnded (st : Store) (k : Nat) : Prop :=
  ∃ c, findCall st k = some c ∧ c.endedAt.isSome = true

theorem committedFalse_ne_start (s : ThreadState) (h : committedFalse s) :
    s ≠ .start := by
  intro he
  subst he
  exact h

/-- The interleaving invariant for two Leave threads on call `k` whose
initial active participants all belong to `u1` or `u2`. -/
structure RaceInv (k u1 u2 : Nat) (st : Store) (sa sb : ThreadState) : Prop where
  callExists : ∃ c, findCall st k = some c
  ended_iff : callEnded st k
      ↔ ((producedInfo sa).isSome = true ∨ (producedInfo sb).isSome = true)
  notBoth : ¬((producedInfo sa).isSome = true ∧ (producedInfo sb).isSome = true)
  noActiveA : sa ≠ .start → ∀ r ∈ activeRows st k, r.userID ≠ u1
  noActiveB : sb ≠ .start → ∀ r ∈ activeRows st k, r.userID ≠ u2
  users : ∀ r ∈ activeRows st k, r.userID = u1 ∨ r.userID = u2
  notBothFalse : ¬(committedFalse sa ∧ committedFalse sb)
  zeroNoneEnded : sawZeroNone sa ∨ sawZeroNone sb → callEnded st k

theorem RaceInv.swap (h : RaceInv k u1 u2 st sa sb) :
    RaceInv k u2 u1 st sb sa where
  callExists := h.callExists
  ended_iff := h.ended_iff.trans or_comm
  notBoth := fun ⟨x, y⟩ => h.notBoth ⟨y, x⟩
  noActiveA := h.noActiveB
  noActiveB := h.noActiveA
  users := fun r hr => (h.users r hr).symm
  notBothFalse := fun ⟨x, y⟩ => h.notBothFalse ⟨y, x⟩
  zeroNoneEnded := fun hz => h.zeroNoneEnded hz.symm

theorem RaceInv.stepA (k u1 u2 t : Nat) (st : Store) (sa sb : ThreadState)
    (h : RaceInv k u1 u2 st sa sb) :
    RaceInv k u1 u2 (stepT k u1 t st sa).1 (stepT k u1 t st sa).2 sb := by
  cases sa with
  | start =>
    show RaceInv k u1 u2 (leaveCall st t k u1) ThreadState.afterLeave sb
    exact
      { callExists := h.callExists
        ended_iff := h.ended_iff
        notBoth := h.notBoth
        noActiveA := by
          intro _ r hr
          rw [activeRows_leaveCall] at hr
          have h2 := List.of_mem_filter hr
          simp only [Bool.not_eq_eq_eq_not, Bool.not_true, beq_eq_false_iff_ne] at h2
          exact h2
        noActiveB := by
          intro hb r hr
          rw [activeRows_leaveCall] at hr
          exact h.noActiveB hb r (List.mem_of_mem_filter hr)
        users := by
          intro r hr
          rw [activeRows_leaveCall] at hr
          exact h.users r (List.mem_of_mem_filter hr)
        notBothFalse := fun ⟨x, _⟩ => x
        zeroNoneEnded := by
          rintro (hz | hz)
          · exact hz.elim
          · exact h.zeroNoneEnded (Or.inr hz) }
  | afterLeave =>
    show RaceInv k u1 u2 st
      (ThreadState.afterCount (getActiveParticipantCount st k)) sb
    exact
      { callExists := h.callExists
        ended_iff := h.ended_iff
        notBoth := h.notBoth
        noActiveA := fun _ => h.noActiveA (fun hq => ThreadState.noConfusion hq)
        noActiveB := h.noActiveB
        users := h.users
        notBothFalse := by
          rintro ⟨hn, hcb⟩
          have hlen : activeRows st k ≠ [] := by
            intro hnil
            apply hn
            show getActiveParticipantCount st k = 0
            unfold getActiveParticipantCount
            rw [hnil]
            rfl
          obtain ⟨r, hr⟩ := List.exists_mem_of_ne_nil _ hlen
          rcases h.users r hr with h1 | h2
          · exact h.noActiveA (fun hq => ThreadState.noConfusion hq) r hr h1
          · exact h.noActiveB (committedFalse_ne_start sb hcb) r hr h2
        zeroNoneEnded := by
          rintro (hz | hz)
          · exact hz.elim
          · exact h.zeroNoneEnded (Or.inr hz) }
  | afterCount n =>
    by_cases hn0 : n = 0
    · subst hn0
      show RaceInv k u1 u2 (endCall st t k).1
        (ThreadState.done true (endCall st t k).2) sb
      obtain ⟨c, hc⟩ := h.callExists
      rcases endCall_cases st t k c hc with ⟨hsome, heq⟩ |
        ⟨hnone, ⟨info, hinfo⟩, hfind, hrows⟩
      · rw [heq]
        have hce : callEnded st k := ⟨c, hc, hsome⟩
        have hpb : (producedInfo sb).isSome = true := by
          rcases h.ended_iff.mp hce with h1 | h1
          · exact (Bool.false_ne_true h1).elim
          · exact h1
        exact
          { callExists := ⟨c, hc⟩
            ended_iff := iff_of_true hce (Or.inr hpb)
            notBoth := fun ⟨x, _⟩ => Bool.false_ne_true x
            noActiveA := fun _ => h.noActiveA (fun hq => ThreadState.noConfusion hq)
            noActiveB := h.noActiveB
            users := h.users
            notBothFalse := fun ⟨x, _⟩ => x
            zeroNoneEnded := fun _ => hce }
      · have hnotended : ¬callEnded st k := by
          rintro ⟨c', hc', hs'⟩
          rw [hc] at hc'
          injection hc' with hcc
          subst hcc
          rw [hnone] at hs'
          exact Bool.false_ne_true hs'
        have hpb : (producedInfo sb).isSome = false := by
          cases hb : (producedInfo sb).isSome
          · rfl
          · exact absurd (h.ended_iff.mpr (Or.inr hb)) hnotended
        have hce' : callEnded (endCall st t k).1 k := ⟨_, hfind, rfl⟩
        exact
          { callExists := ⟨_, hfind⟩
            ended_iff := iff_of_true hce' (Or.inl (by
              show ((endCall st t k).2).isSome = true
              rw [hinfo]
              rfl))
            notBoth := by
              rintro ⟨_, hy⟩
              rw [hpb] at hy
              exact Bool.false_ne_true hy
            noActiveA := by
              intro _ r hr
              rw [hrows] at hr
              exact absurd hr (List.not_mem_nil r)
            noActiveB := by
              intro _ r hr
              rw [hrows] at hr
              exact absurd hr (List.not_mem_nil r)
            users := by
              intro r hr
              rw [hrows] at hr
              exact absurd hr (List.not_mem_nil r)
            notBothFalse := fun ⟨x, _⟩ => x
            zeroNoneEnded := fun _ => hce' }
    · have hstep : stepT k u1 t st (.afterCount n) = (st, .done false none) := by
        simp only [stepT, if_neg hn0]
      rw [hstep]
      exact
        { callExists := h.callExists
          ended_iff := h.ended_iff
          notBoth := h.notBoth
          noActiveA := fun _ => h.noActiveA (fun hq => ThreadState.noConfusion hq)
          noActiveB := h.noActiveB
          users := h.users
          notBothFalse := fun ⟨_, hcb⟩ => h.notBothFalse ⟨hn0, hcb⟩
          zeroNoneEnded := by
            rintro (hz | hz)
            · exact hz.elim
            · exact h.zeroNoneEnded (Or.inr hz) }
  | done z p => exact h

theorem runRace_inv (k u1 t1 u2 t2 : Nat) (sched : List Bool) :
    ∀ (st : Store) (sa sb : ThreadState), RaceInv k u1 u2 st sa sb →
      RaceInv k u1 u2 (runRace k u1 t1 u2 t2 sched st sa sb).1
        (runRace k u1 t1 u2 t2 sched st sa sb).2.1
        (runRace k u1 t1 u2 t2 sched st sa sb).2.2 := by
  induction sched with
  | nil => intro st sa sb h; exact h
  | cons b rest ih =>
    intro st sa sb h
    cases b
    · exact ih _ _ _ ((RaceInv.stepA k u2 u1 t2 st sb sa h.swap).swap)
    · exact ih _ _ _ (RaceInv.stepA k u1 u2 t1 st sa sb h)

/-- When both threads have completed, exactly one of them produced a
CallEndInfo. -/
theorem race_exactly_one (k u1 u2 : Nat) (st : Store) (sa sb : ThreadState)
    (h : RaceInv k u1 u2 st sa sb) (ha : isDone sa) (hb : isDone sb) :
    producedCount sa + producedCount sb = 1 := by
  cases sa with
  | start => exact ha.elim
  | afterLeave => exact ha.elim
  | afterCount n => exact ha.elim
  | done za pa =>
    cases sb with
    | start => exact hb.elim
    | afterLeave => exact hb.elim
    | afterCount n => exact hb.elim
    | done zb pb =>
      cases pa with
      | some ia =>
        cases pb with
        | some ib => exact absurd ⟨rfl, rfl⟩ h.notBoth
        | none => rfl
      | none =>
        cases pb with
        | some ib => rfl
        | none =>
          exfalso
          have hne : ¬callEnded st k := by
            intro hc
            rcases h.ended_iff.mp hc with h1 | h1 <;>
              exact Bool.false_ne_true h1
          cases za
          · cases zb
            · exact h.notBothFalse ⟨trivial, trivial⟩
            · exact hne (h.zeroNoneEnded (Or.inr trivial))
          · exact hne (h.zeroNoneEnded (Or.inl trivial))

/-- C1: a Leave that drops the active-participant count to zero ends the
session (sets the end timestamp) and yields a CallEndInfo; any
subsequent Leave observing the session already ended is a no-op that
yields no CallEndInfo, leaves the end timestamp unchanged, and is not an
error (it still answers 2xx, not notFound); and two Leave threads racing
from a state where the call's active participants are theirs produce,
under every interleaving that runs both to completion, exactly one
CallEndInfo for that call id. -/
theorem call_end_exactly_once (st : Store) (k u1 t1 u2 t2 t : Nat) (c : Call)
    (hf : findCall st k = some c) (hopen : c.endedAt = none)
    (husers : ∀ r ∈ activeRows st k, r.userID = u1 ∨ r.userID = u2) :
    (getActiveParticipantCount (leaveCall st t k u1) k = 0 →
      ∃ info, (leaveFlow st t k u1).2 = .ok (some info)
        ∧ findCall (leaveFlow st t k u1).1 k = some { c with endedAt := some t })
    ∧ (∀ (st2 : Store) (k2 u t' e : Nat) (c2 : Call),
        findCall st2 k2 = some c2 → c2.endedAt = some e →
          (leaveFlow st2 t' k2 u).2 = .ok none
          ∧ findCall (leaveFlow st2 t' k2 u).1 k2 = some c2)
    ∧ (∀ sched : List Bool,
        isDone (runRace k u1 t1 u2 t2 sched st .start .start).2.1 →
        isDone (runRace k u1 t1 u2 t2 sched st .start .start).2.2 →
        producedCount (runRace k u1 t1 u2 t2 sched st .start .start).2.1
          + producedCount (runRace k u1 t1 u2 t2 sched st .start .start).2.2
          = 1) := by
  refine ⟨?_, ?_, ?_⟩
  · intro hdrop
    have hf1 : findCall (leaveCall st t k u1) k = some c := hf
    rcases endCall_cases (leaveCall st t k u1) t k c hf1 with ⟨hsome, _⟩ |
      ⟨_, ⟨info, hinfo⟩, hfind, _⟩
    · rw [hopen] at hsome
      exact absurd hsome (by decide)
    · refine ⟨info, ?_, ?_⟩
      · simp only [leaveFlow, hf]
        rw [if_pos hdrop, hinfo]
      · simp only [leaveFlow, hf]
        rw [if_pos hdrop]
        exact hfind
  · intro st2 k2 u t' e c2 hf2 hend2
    by_cases hcnt : getActiveParticipantCount (leaveCall st2 t' k2 u) k2 = 0
    · have hf1 : findCall (leaveCall st2 t' k2 u) k2 = some c2 := hf2
      rcases endCall_cases (leaveCall st2 t' k2 u) t' k2 c2 hf1 with ⟨_, heq⟩ |
        ⟨hnone2, _, _, _⟩
      · constructor
        · simp only [leaveFlow, hf2]
          rw [if_pos hcnt, heq]
        · simp only [leaveFlow, hf2]
          rw [if_pos hcnt, heq]
          exact hf2
      · rw [hend2] at hnone2
        exact absurd hnone2 (by simp)
    · constructor
      · simp only [leaveFlow, hf2]
        rw [if_neg hcnt]
      · simp only [leaveFlow, hf2]
        rw [if_neg hcnt]
        exact hf2
  · have hinv0 : RaceInv k u1 u2 st .start .start :=
      { callExists := ⟨c, hf⟩
        ended_iff := iff_of_false
          (by
            rintro ⟨c', hc', hs'⟩
            rw [hf] at hc'
            injection hc' with hcc
            subst hcc
            rw [hopen] at hs'
            exact Bool.false_ne_true hs')
          (by rintro (h1 | h1) <;> exact Bool.false_ne_true h1)
        notBoth := fun ⟨x, _⟩ => Bool.false_ne_true x
        noActiveA := fun hq => absurd rfl hq
        noActiveB := fun hq => absurd rfl hq
        users := husers
        notBothFalse := fun ⟨x, _⟩ => x
        zeroNoneEnded := by rintro (hz | hz) <;> exact hz.elim }
    intro sched hda hdb
    exact race_exactly_one k u1 u2 _ _ _
      (runRace_inv k u1 t1 u2 t2 sched st .start .start hinv0) hda hdb

theorem call_end_exactly_once_witness :
    (∃ info,
      (leaveFlow
        { calls := [{ id := 1, conversationID := 2, startedBy := 1,
                      startedAt := 0, endedAt := none, participants := [] }]
          participants := [{ callID := 1, userID := 1, joinedAt := 0, leftAt := none }] }
        9 1 1).2 = .ok (some info))
    ∧ (leaveFlow
        { calls := [{ id := 1, conversationID := 2, startedBy := 1,
                      startedAt := 0, endedAt := some 5, participants := [] }]
          participants := [] }
        12 1 1).2 = .ok none
    ∧ producedCount
        (runRace 1 1 10 2 11 [true, false, true, false, true, false]
          { calls := [{ id := 1, conversationID := 2, startedBy := 1,
                        startedAt := 0, endedAt := none, participants := [] }]
            participants :=
              [{ callID := 1, userID := 1, joinedAt := 0, leftAt := none },
               { callID := 1, userID := 2, joinedAt := 0, leftAt := none }] }
          .start .start).2.1
      + producedCount
          (runRace 1 1 10 2 11 [true, false, true, false, true, false]
            { calls := [{ id := 1, conversationID := 2, startedBy := 1,
                          startedAt := 0, endedAt := none, participants := [] }]
              participants :=
                [{ callID := 1, userID := 1, joinedAt := 0, leftAt := none },
                 { callID := 1, userID := 2, joinedAt := 0, leftAt := none }] }
            .start .start).2.2 = 1 := by
  have hA := call_end_exactly_once
    { calls := [{ id := 1, conversationID := 2, startedBy := 1,
                  startedAt := 0, endedAt := none, participants := [] }]
      participants := [{ callID := 1, userID := 1, joinedAt := 0, leftAt := none }] }
    1 1 10 1 11 9
    { id := 1, conversationID := 2, startedBy := 1, startedAt := 0,
      endedAt := none, participants := [] }
    rfl rfl (by decide)
  have hR := call_end_exactly_once
    { calls := [{ id := 1, conversationID := 2, startedBy := 1,
                  startedAt := 0, endedAt := none, participants := [] }]
      participants :=
        [{ callID := 1, userID := 1, joinedAt := 0, leftAt := none },
         { callID := 1, userID := 2, joinedAt := 0, leftAt := none }] }
    1 1 10 2 11 9
    { id := 1, conversationID := 2, startedBy := 1, startedAt := 0,
      endedAt := none, participants := [] }
    rfl rfl (by decide)
  refine ⟨?_, ?_, ?_⟩
  · obtain ⟨info, h1, _⟩ := hA.1 (by decide)
    exact ⟨info, h1⟩
  · exact (hA.2.1
      { calls := [{ id := 1, conversationID := 2, startedBy := 1,
                    startedAt := 0, endedAt := some 5, participants := [] }]
        participants := [] }
      1 1 12 5
      { id := 1, conversationID := 2, startedBy := 1, startedAt := 0,
        endedAt := some 5, participants := [] }
      rfl rfl).1
  · exact hR.2.2 [true, false, true, false, true, false] trivial trivial

/-- C2, evaluated at the failing input: user 1 already holds an open
participant row in conversation 1's active call (id 1); a second
StartOrJoin for the same conversation succeeds and leaves TWO open
participant rows for (call 1, user 1) — JoinCall inserts unconditionally,
contradicting the handler's own "(if not already in it)" comment and the
one-active-row invariant. -/
theorem startOrJoin_reentry_duplicates_row :
    (startCallFlow
      { calls := [{ id := 1, conversationID := 1, startedBy := 1, startedAt := 0,
                    endedAt := none, participants := [] }]
        participants := [{ callID := 1, userID := 1, joinedAt := 0, leftAt := none }] }
      5 1 1 99).2 = Except.ok 1
    ∧ ((startCallFlow
        { calls := [{ id := 1, conversationID := 1, startedBy := 1, startedAt := 0,
                      endedAt := none, participants := [] }]
          participants := [{ callID := 1, userID := 1, joinedAt := 0, leftAt := none }] }
        5 1 1 99).1.participants.filter
          (fun r => r.callID == 1 && r.userID == 1 && r.leftAt.isNone)).length = 2 := by
  constructor <;> rfl

end BlaBack
